import Mathlib

/-
  Verification of the daily-meal-planner service (app/services.py, app/main.py).

  The Python string primitives used by the service are modelled explicitly:
  `pyStrip` models `str.strip()` (ASCII whitespace), `pySplitlines` models
  `str.splitlines()` restricted to the newline character (the only line
  terminator occurring in this pipeline), `pySplitComma` models
  `str.split(",")`, and `pyStripWith` models `str.strip(chars)`.
  The filesystem is modelled as a partial map from path strings to file
  contents; the generative backend (OpenAI text/image/speech plus the image
  download) is modelled as an environment of fallible functions, since the
  spec treats it as an opaque external collaborator.
-/

/-- Python `str.strip()` whitespace set (ASCII range). -/
def isPySpace (c : Char) : Bool :=
  c == ' ' || c == '\t' || c == '\n' || c == '\r' || c == '\x0b' || c == '\x0c'

/-- Characters stripped by `titles_line.strip(" '")` in `extract_titles`. -/
def isSpaceQuote (c : Char) : Bool :=
  c == ' ' || c == '\x27'

/-- Strip characters satisfying `p` from both ends of a character list. -/
def stripEnds (p : Char → Bool) (l : List Char) : List Char :=
  ((l.dropWhile p).reverse.dropWhile p).reverse

/-- Python `s.strip(chars)`: strip characters satisfying `p` from both ends. -/
def pyStripWith (p : Char → Bool) (s : String) : String :=
  String.mk (stripEnds p s.data)

/-- Python `s.strip()`. -/
def pyStrip (s : String) : String := pyStripWith isPySpace s

/-- Python `s.strip(" '")`. -/
def pyStripSQ (s : String) : String := pyStripWith isSpaceQuote s

/-- Worker for `pySplitlines`: every newline terminates a line; a final
segment without a trailing newline is a line unless it is empty. -/
def pyLinesGo : List Char → List Char → List String
  | [], cur => if cur.isEmpty then [] else [String.mk cur]
  | c :: rest, cur =>
    if c = '\n' then String.mk cur :: pyLinesGo rest []
    else pyLinesGo rest (cur ++ [c])

/-- Python `s.splitlines()` (newline terminators). -/
def pySplitlines (s : String) : List String := pyLinesGo s.data []

/-- Worker for `pySplitComma`. -/
def pySplitCommaGo : List Char → List Char → List String
  | [], cur => [String.mk cur]
  | c :: rest, cur =>
    if c = ',' then String.mk cur :: pySplitCommaGo rest []
    else pySplitCommaGo rest (cur ++ [c])

/-- Python `s.split(",")`. -/
def pySplitComma (s : String) : List String := pySplitCommaGo s.data []

/-- Python `"\n".join(xs)`. -/
def joinNl : List String → String
  | [] => ""
  | [x] => x
  | x :: rest => x ++ "\n" ++ joinNl rest

/-- `services.split_meals`: a separator is a line that, once stripped, is
non-empty, consists only of dashes, and has length at least 10. -/
def isSeparator (line : String) : Bool :=
  let stripped := pyStrip line
  !(stripped == "") && stripped.data.all (· == '-') && decide (10 ≤ stripped.length)

/-- The accumulation loop of `services.split_meals`: non-separator lines are
appended to the current block; a separator closes the current block if it is
non-empty; a trailing non-empty block is flushed at the end. -/
def splitBlocks : List String → List String → List (List String)
  | [], current => if current.isEmpty then [] else [current]
  | line :: rest, current =>
    if isSeparator line then
      if current.isEmpty then splitBlocks rest []
      else current :: splitBlocks rest []
    else splitBlocks rest (current ++ [line])

/-- A block contributes a section iff some line has non-blank content
(the `if any(l.strip() for l in b)` filter in `split_meals`). -/
def hasContent (b : List String) : Bool :=
  b.any (fun l => !(pyStrip l == ""))

/-- The `"\n".join(b).strip()` step of `split_meals`. -/
def trimJoin (b : List String) : String := pyStrip (joinNl b)

/-- `services.split_meals`. -/
def split_meals (plan_text : String) : List String :=
  ((splitBlocks (pySplitlines plan_text) []).filter hasContent).map trimJoin

/-- Specification helper: the maximal runs of lines between separator lines,
keeping blank and empty runs. `k` separators produce `k + 1` regions. -/
def regionsGo : List String → List String → List (List String)
  | [], current => [current]
  | line :: rest, current =>
    if isSeparator line then current :: regionsGo rest []
    else regionsGo rest (current ++ [line])

/-- The inter-separator regions of a line list. -/
def regions (lines : List String) : List (List String) := regionsGo lines []

/-- `services.extract_titles`: parse the literal last line of the plan. -/
def extract_titles (plan_text : String) : List String :=
  match (pySplitlines plan_text).getLast? with
  | none => []
  | some last =>
    let titles_line := pyStrip last
    ((pySplitComma titles_line).filter (fun t => !(pyStrip t == ""))).map pyStripSQ

/-- Characters kept by the regex `[^A-Za-z0-9_\-]` removal in
`services.safe_filename`. -/
def isAllowedChar (c : Char) : Bool :=
  (decide ('A' ≤ c) && decide (c ≤ 'Z')) ||
  (decide ('a' ≤ c) && decide (c ≤ 'z')) ||
  (decide ('0' ≤ c) && decide (c ≤ '9')) ||
  c == '_' || c == '-'

/-- `services.safe_filename`: strip, replace spaces with underscores, then
remove every character outside `[A-Za-z0-9_-]`. -/
def safe_filename (name : String) : String :=
  let n1 := pyStrip name
  let n2 := String.mk (n1.data.map fun c => if c = ' ' then '_' else c)
  String.mk (n2.data.filter isAllowedChar)

/-- The failure taxonomy of the `/meal_plan` endpoint (`main.generate_meal_plan`). -/
inductive PlanError where
  | generationFailure
  | emptyOrMalformedPlan
  | assetGenerationFailure
deriving DecidableEq

/-- The reconciliation step of `main.generate_meal_plan` (lines 168-184):
if fewer than 3 sections or titles were recovered, truncate both lists to
`count = min(3, len(sections), len(titles))`, failing when `count = 0`;
then truncate both to 3 and zip them positionally. -/
def reconcile (meal_sections titles : List String) :
    Except PlanError (List (String × String)) :=
  if meal_sections.length < 3 ∨ titles.length < 3 then
    let count := min 3 (min meal_sections.length titles.length)
    if count = 0 then .error .emptyOrMalformedPlan
    else .ok (((meal_sections.take count).take 3).zip ((titles.take count).take 3))
  else .ok ((meal_sections.take 3).zip (titles.take 3))

/-- The filesystem under the static-asset root, as a partial map from path
strings to file contents. Both `services.py` (via `STATIC_DIR`) and
`main.py` (via `os.path.join("app", "static", ...)`) address the same tree,
modelled here with `app/static/...` keys. -/
def FS : Type := String → Option String

/-- Overwrite one file. -/
def fsWrite (fs : FS) (path content : String) : FS :=
  fun q => if q = path then some content else fs q

/-- The empty filesystem. -/
def fsEmpty : FS := fun _ => none

/-- The external generative backend: per title, the downloaded image bytes
(`none` models a failed DALL-E call or a non-200 download in
`create_and_save_image`); per recipe text, the synthesized audio bytes
(`none` models a failed GPT rewrite or TTS call in `speak`). -/
structure GenEnv where
  imageData : String → Option String
  spokenAudio : String → Option String

/-- The image path computed by `services.create_and_save_image`:
`IMAGES_DIR / f"{safe_filename(title)}.png"` — derived from the sanitized
title, not from the canonical meal identifier. -/
def image_path (title : String) : String :=
  "app/static/images/" ++ safe_filename title ++ ".png"

/-- The audio path computed by `services.speak`:
`AUDIO_DIR / f"{filename_prefix}.mp3"`. -/
def audio_path (audioName : String) : String :=
  "app/static/audio/" ++ audioName ++ ".mp3"

/-- The recipe-text path written by `main.generate_meal_plan`:
`os.path.join(html_text_dir, f"{meal_name}.txt")`. -/
def recipe_path (mealName : String) : String :=
  "app/static/recipes/" ++ mealName ++ ".txt"

/-- `services.create_and_save_image`: generate an image for the title,
save it under `images/{safe_filename(title)}.png`, return the path; `none`
models the raised exception on generation or download failure. -/
def create_and_save_image (env : GenEnv) (title : String) (fs : FS) :
    Option (FS × String) :=
  match env.imageData title with
  | none => none
  | some bytes => some (fsWrite fs (image_path title) bytes, image_path title)

/-- `services.speak`: rewrite the recipe for speech and synthesize audio to
`audio/{filename_prefix}.mp3`; `none` models a raised exception. The
second argument plays the role of the source's `filename_prefix` parameter. -/
def speak (env : GenEnv) (recipe : String) (audioName : String) (fs : FS) :
    Option (FS × String) :=
  match env.spokenAudio recipe with
  | none => none
  | some bytes => some (fsWrite fs (audio_path audioName) bytes, audio_path audioName)

/-- `main.path_to_url`: map a path under the static root to a public URL.
`base` stands for `str(request.base_url)`, which ends with a slash. -/
def path_to_url (path : String) (base : String) : String :=
  base ++ "static/" ++ path.drop ("app/static/".length)

/-- The structured meal record returned by `/meal_plan` (`main.Meal`). -/
structure MealRec where
  title : String
  text : String
  image_url : String
  audio_url : String
  html_url : String
deriving DecidableEq

/-- The canonical slot identifiers of `main.generate_meal_plan`. -/
def meal_names : List String := ["breakfast", "lunch", "dinner"]

/-- The `BuildingMeals` loop of `main.generate_meal_plan` (lines 191-221):
for each reconciled pair in order, write the recipe text, then generate and
save the image, then the audio, then assemble the meal record. A failure
(`none`) aborts the loop, keeping the filesystem writes made so far.
This models the loop as `main.py` intends it, with the image step able to
succeed when the backend succeeds; the source's image call as actually
written raises `TypeError` unconditionally (see claim C1), which
`build_meals_actual` below models. -/
def build_meals (env : GenEnv) (base : String) :
    Nat → List (String × String) → FS → FS × Option (List MealRec)
  | _, [], fs => (fs, some [])
  | idx, (section_text, title) :: rest, fs =>
    let meal_name := meal_names.getD idx ""
    let fs1 := fsWrite fs (recipe_path meal_name) section_text
    match create_and_save_image env title fs1 with
    | none => (fs1, none)
    | some (fs2, imagePath) =>
      match speak env section_text meal_name fs2 with
      | none => (fs2, none)
      | some (fs3, audioPath) =>
        let meal : MealRec :=
          { title := title
            text := section_text
            image_url := path_to_url imagePath base
            audio_url := path_to_url audioPath base
            html_url := base ++ "meal_plan_html/" ++ meal_name }
        match build_meals env base (idx + 1) rest fs3 with
        | (fs4, none) => (fs4, none)
        | (fs4, some ms) => (fs4, some (meal :: ms))

/-- `main.generate_meal_plan`, given the raw plan text returned by the
text-generation backend: reject blank plans, reconcile sections with
titles, then run the meal-building loop. Returns the final filesystem and
either the response payload `(raw_plan, meals)` or the failure kind. -/
def generate_meal_plan (env : GenEnv) (base : String) (plan_text : String)
    (fs : FS) : FS × Except PlanError (String × List MealRec) :=
  if pyStrip plan_text == "" then (fs, .error .generationFailure)
  else
    match reconcile (split_meals plan_text) (extract_titles plan_text) with
    | .error e => (fs, .error e)
    | .ok pairs =>
      match build_meals env base 0 pairs fs with
      | (fs', none) => (fs', .error .assetGenerationFailure)
      | (fs', some meals) => (fs', .ok (plan_text, meals))

/-- The number of meal records in a successful response, `none` on failure. -/
def mealCount (r : FS × Except PlanError (String × List MealRec)) : Option Nat :=
  match r.2 with
  | .ok (_, meals) => some meals.length
  | .error _ => none

/-- The image step as `main.py` (lines 200-204) actually invokes it: the
call passes a `filename_prefix` keyword argument that
`services.create_and_save_image` (services.py lines 139-145) does not
accept, so Python raises `TypeError` at the call site — before the backend
is even consulted — whatever the environment would return (claim C1). -/
def create_and_save_image_call (env : GenEnv) (title : String) (fs : FS) :
    Option (FS × String) :=
  none

/-- The `BuildingMeals` loop as it actually executes: identical to
`build_meals` except that the image step is the failing call site above,
so the loop always aborts at its first slot, right after writing that
slot's recipe text. -/
def build_meals_actual (env : GenEnv) (base : String) :
    Nat → List (String × String) → FS → FS × Option (List MealRec)
  | _, [], fs => (fs, some [])
  | idx, (section_text, title) :: rest, fs =>
    let meal_name := meal_names.getD idx ""
    let fs1 := fsWrite fs (recipe_path meal_name) section_text
    match create_and_save_image_call env title fs1 with
    | none => (fs1, none)
    | some (fs2, imagePath) =>
      match speak env section_text meal_name fs2 with
      | none => (fs2, none)
      | some (fs3, audioPath) =>
        let meal : MealRec :=
          { title := title
            text := section_text
            image_url := path_to_url imagePath base
            audio_url := path_to_url audioPath base
            html_url := base ++ "meal_plan_html/" ++ meal_name }
        match build_meals_actual env base (idx + 1) rest fs3 with
        | (fs4, none) => (fs4, none)
        | (fs4, some ms) => (fs4, some (meal :: ms))

/-- `main.generate_meal_plan` as it actually executes, with the failing
image call site: the `TypeError` propagates out of the loop like any other
exception (an HTTP 500), here mapped to the `assetGenerationFailure` kind
of the `BuildingMeals` phase. -/
def generate_meal_plan_actual (env : GenEnv) (base : String)
    (plan_text : String) (fs : FS) :
    FS × Except PlanError (String × List MealRec) :=
  if pyStrip plan_text == "" then (fs, .error .generationFailure)
  else
    match reconcile (split_meals plan_text) (extract_titles plan_text) with
    | .error e => (fs, .error e)
    | .ok pairs =>
      match build_meals_actual env base 0 pairs fs with
      | (fs', none) => (fs', .error .assetGenerationFailure)
      | (fs', some meals) => (fs', .ok (plan_text, meals))

/-- Python `s.lower()` (ASCII case folding suffices for the route's inputs). -/
def pyLower (s : String) : String := String.mk (s.data.map Char.toLower)

/-- Python `s.capitalize()`. -/
def pyCapitalize (s : String) : String :=
  match s.data with
  | [] => ""
  | c :: rest => String.mk (Char.toUpper c :: rest.map Char.toLower)

/-- The outcome of `GET /meal_plan_html/{meal_name}`. -/
inductive HtmlResult where
  | badRequest
  | notFound
  | page (title body image_url audio_url : String)
deriving DecidableEq

/-- `main.get_meal_html`: 400 unless the lowercased name is one of the
three canonical identifiers; 404 if `recipes/{meal_name}.txt` is absent;
otherwise render the file through markdown into the template, embedding
the identifier-derived image and audio URLs. `markdown` abstracts the
out-of-scope markdown-to-HTML transform; `base` stands for the request
base URL ending in a slash (the source strips the trailing slash and
re-inserts it before `static/`). -/
def get_meal_html (fs : FS) (markdown : String → String) (meal_name : String)
    (base : String) : HtmlResult :=
  if meal_names.contains (pyLower meal_name) then
    let m := pyLower meal_name
    match fs (recipe_path m) with
    | none => .notFound
    | some raw_text =>
      .page (pyCapitalize m) (markdown raw_text)
        (base ++ "static/images/" ++ m ++ ".png")
        (base ++ "static/audio/" ++ m ++ ".mp3")
  else .badRequest

/-- Modelled from the spec (§4.2), for comparison with `extract_titles`:
the last non-empty line of the input, if any. -/
def specLastNonEmptyLine (s : String) : Option String :=
  ((pySplitlines s).filter (fun l => !(pyStrip l == ""))).getLast?

/-- The comma-separated fragments of the stripped last line (empty when the
input has no lines); `extract_titles` filters and trims exactly these. -/
def lastLineFragments (s : String) : List String :=
  match (pySplitlines s).getLast? with
  | none => []
  | some last => pySplitComma (pyStrip last)


/-
  Generic list helpers.
-/

/-- Zipping two lists truncated to the same length is a truncated zip. -/
theorem zip_take_take {α β : Type} :
    ∀ (s : List α) (t : List β) (n : Nat),
      (s.take n).zip (t.take n) = (s.zip t).take n
  | [], _, _ => by simp
  | _ :: _, [], _ => by simp
  | _ :: _, _ :: _, 0 => by simp
  | a :: s, b :: t, n + 1 => by
    simp [List.zip_cons_cons, zip_take_take s t n]

/-- A filter that rejects at least one member is strictly shortening. -/
theorem length_filter_lt {α : Type} (p : α → Bool) :
    ∀ l : List α, (∃ x ∈ l, p x = false) → (l.filter p).length < l.length
  | [], h => by simp at h
  | a :: l, h => by
    by_cases pa : p a
    · obtain ⟨x, hx, hpx⟩ := h
      rcases List.mem_cons.mp hx with rfl | hx
      · exact absurd pa (by simp [hpx])
      · have := length_filter_lt p l ⟨x, hx, hpx⟩
        simpa [List.filter, pa] using Nat.succ_lt_succ this
    · have hle := List.length_filter_le p l
      have hf : List.filter p (a :: l) = List.filter p l := by
        simp [List.filter_cons, pa]
      rw [hf]
      simp only [List.length_cons]
      omega

/-
  Structure of the segmenter: `splitBlocks` keeps exactly the non-empty
  inter-separator regions, and the trailing content filter then keeps
  exactly the regions with a non-blank line.
-/

/-- The segmentation loop returns the non-empty regions, in order. -/
theorem splitBlocks_eq_filter_regionsGo :
    ∀ (lines cur : List String),
      splitBlocks lines cur = (regionsGo lines cur).filter (fun b => !b.isEmpty)
  | [], cur => by
    cases cur <;> simp [splitBlocks, regionsGo, List.filter]
  | line :: rest, cur => by
    by_cases hs : isSeparator line
    · cases cur with
      | nil => simp [splitBlocks, regionsGo, hs, List.filter,
          splitBlocks_eq_filter_regionsGo rest []]
      | cons a cur' => simp [splitBlocks, regionsGo, hs, List.filter,
          splitBlocks_eq_filter_regionsGo rest []]
    · simp [splitBlocks, regionsGo, hs,
        splitBlocks_eq_filter_regionsGo rest (cur ++ [line])]

/-- `k` separator lines produce `k + 1` regions. -/
theorem regionsGo_length :
    ∀ (lines cur : List String),
      (regionsGo lines cur).length = lines.countP isSeparator + 1
  | [], _ => by simp [regionsGo]
  | line :: rest, cur => by
    by_cases hs : isSeparator line
    · simp [regionsGo, hs, List.countP_cons, regionsGo_length rest []]
    · simp [regionsGo, hs, List.countP_cons, regionsGo_length rest (cur ++ [line])]

/-- No region contains a separator line. -/
theorem regionsGo_no_separator :
    ∀ (lines cur : List String), (∀ l ∈ cur, isSeparator l = false) →
      ∀ r ∈ regionsGo lines cur, ∀ l ∈ r, isSeparator l = false
  | [], _, hcur => by
    intro r hr l hl
    simp only [regionsGo, List.mem_singleton] at hr
    subst hr
    exact hcur l hl
  | line :: rest, cur, hcur => by
    intro r hr l hl
    by_cases hs : isSeparator line
    · simp only [regionsGo, if_pos hs, List.mem_cons] at hr
      rcases hr with rfl | hr
      · exact hcur l hl
      · exact regionsGo_no_separator rest [] (by simp) r hr l hl
    · simp only [regionsGo, if_neg hs] at hr
      refine regionsGo_no_separator rest (cur ++ [line]) ?_ r hr l hl
      intro x hx
      rcases List.mem_append.mp hx with hx | hx
      · exact hcur x hx
      · simp only [List.mem_singleton] at hx
        subst hx
        simpa using hs

/-- Every line of every region is a line of the input. -/
theorem mem_regionsGo_mem :
    ∀ (lines cur : List String) (r : List String), r ∈ regionsGo lines cur →
      ∀ l ∈ r, l ∈ lines ∨ l ∈ cur
  | [], _, r, hr => by
    intro l hl
    simp only [regionsGo, List.mem_singleton] at hr
    subst hr
    exact Or.inr hl
  | line :: rest, cur, r, hr => by
    intro l hl
    by_cases hs : isSeparator line
    · simp only [regionsGo, if_pos hs, List.mem_cons] at hr
      rcases hr with rfl | hr
      · exact Or.inr hl
      · rcases mem_regionsGo_mem rest [] r hr l hl with h | h
        · exact Or.inl (List.mem_cons_of_mem _ h)
        · simp at h
    · simp only [regionsGo, if_neg hs] at hr
      rcases mem_regionsGo_mem rest (cur ++ [line]) r hr l hl with h | h
      · exact Or.inl (List.mem_cons_of_mem _ h)
      · rcases List.mem_append.mp h with h | h
        · exact Or.inr h
        · simp only [List.mem_singleton] at h
          subst h
          exact Or.inl (List.mem_cons_self _ _)

/-- Dropping empty blocks before the content filter changes nothing,
because empty blocks have no content. -/
theorem filter_nonempty_filter_hasContent :
    ∀ R : List (List String),
      (R.filter (fun b => !b.isEmpty)).filter hasContent = R.filter hasContent
  | [] => rfl
  | r :: R => by
    by_cases he : r.isEmpty
    · have hr0 : r = [] := by cases r <;> simp_all
      subst hr0
      simp [List.filter_cons, hasContent, filter_nonempty_filter_hasContent R]
    · by_cases hc : hasContent r
      · simp [List.filter_cons, he, hc, filter_nonempty_filter_hasContent R]
      · simp [List.filter_cons, he, hc, filter_nonempty_filter_hasContent R]

/-
  Properties of the Python-style strip and splitlines models.
-/

/-- The head surviving a `dropWhile` fails the predicate. -/
theorem head?_dropWhile_false {α : Type} (p : α → Bool) :
    ∀ (l : List α) (a : α), (l.dropWhile p).head? = some a → p a = false
  | [], a, h => by simp [List.dropWhile] at h
  | x :: l, a, h => by
    by_cases hx : p x
    · rw [List.dropWhile_cons_of_pos hx] at h
      exact head?_dropWhile_false p l a h
    · rw [List.dropWhile_cons_of_neg hx] at h
      simp only [List.head?_cons, Option.some.injEq] at h
      subst h
      simpa using hx

/-- A non-trivial `dropWhile` keeps the last element. -/
theorem getLast?_dropWhile {α : Type} (p : α → Bool) :
    ∀ l : List α, l.dropWhile p ≠ [] → (l.dropWhile p).getLast? = l.getLast?
  | [], h => by simp [List.dropWhile] at h
  | x :: l, h => by
    by_cases hx : p x
    · rw [List.dropWhile_cons_of_pos hx] at h ⊢
      cases l with
      | nil => simp [List.dropWhile] at h
      | cons y l' =>
        rw [getLast?_dropWhile p (y :: l') h, List.getLast?_cons_cons]
    · rw [List.dropWhile_cons_of_neg hx]

/-- The first character left by `stripEnds` fails the predicate. -/
theorem stripEnds_head {p : Char → Bool} {l : List Char} {c : Char}
    (h : (stripEnds p l).head? = some c) : p c = false := by
  unfold stripEnds at h
  rw [List.head?_reverse] at h
  have hne : (l.dropWhile p).reverse.dropWhile p ≠ [] := by
    intro h0
    rw [h0] at h
    simp at h
  rw [getLast?_dropWhile p _ hne, List.getLast?_reverse] at h
  exact head?_dropWhile_false p _ _ h

/-- The last character left by `stripEnds` fails the predicate. -/
theorem stripEnds_getLast {p : Char → Bool} {l : List Char} {c : Char}
    (h : (stripEnds p l).getLast? = some c) : p c = false := by
  unfold stripEnds at h
  rw [List.getLast?_reverse] at h
  exact head?_dropWhile_false p _ _ h

/-- `stripEnds` empties a list exactly when every element satisfies `p`. -/
theorem stripEnds_eq_nil_iff (p : Char → Bool) (l : List Char) :
    stripEnds p l = [] ↔ ∀ c ∈ l, p c = true := by
  unfold stripEnds
  rw [List.reverse_eq_nil_iff, List.dropWhile_eq_nil_iff]
  constructor
  · intro h c hc
    have hc2 : c ∈ l.takeWhile p ++ l.dropWhile p := by
      rw [List.takeWhile_append_dropWhile]
      exact hc
    rcases List.mem_append.mp hc2 with hm | hm
    · exact List.mem_takeWhile_imp hm
    · exact h c (List.mem_reverse.mpr hm)
  · intro h c hc
    exact h c ((List.dropWhile_sublist p).mem (List.mem_reverse.mp hc))

/-- A string strips to empty exactly when all its characters are blank. -/
theorem pyStrip_eq_empty_iff (s : String) :
    pyStrip s = "" ↔ ∀ c ∈ s.data, isPySpace c = true := by
  constructor
  · intro h
    have hdata : stripEnds isPySpace s.data = [] := congrArg String.data h
    exact (stripEnds_eq_nil_iff isPySpace s.data).mp hdata
  · intro h
    have hdata : stripEnds isPySpace s.data = [] :=
      (stripEnds_eq_nil_iff isPySpace s.data).mpr h
    unfold pyStrip pyStripWith
    rw [hdata]

/-- Every character of every line comes from the split input. -/
theorem pyLinesGo_chars :
    ∀ (cs cur : List Char) (l : String), l ∈ pyLinesGo cs cur →
      ∀ c ∈ l.data, c ∈ cs ∨ c ∈ cur
  | [], cur, l, hl => by
    intro c hc
    by_cases hcur : cur.isEmpty
    · simp [pyLinesGo, hcur] at hl
    · simp only [pyLinesGo, if_neg hcur, List.mem_singleton] at hl
      subst hl
      exact Or.inr hc
  | x :: cs, cur, l, hl => by
    intro c hc
    by_cases hx : x = '\n'
    · subst hx
      rw [pyLinesGo, if_pos rfl, List.mem_cons] at hl
      rcases hl with h0 | hl
      · subst h0
        exact Or.inr hc
      · have hrec := pyLinesGo_chars cs [] l hl c hc
        rcases hrec with h | h
        · exact Or.inl (List.mem_cons_of_mem _ h)
        · simp at h
    · simp only [pyLinesGo, if_neg hx] at hl
      have hrec := pyLinesGo_chars cs (cur ++ [x]) l hl c hc
      rcases hrec with h | h
      · exact Or.inl (List.mem_cons_of_mem _ h)
      · rcases List.mem_append.mp h with h | h
        · exact Or.inr h
        · simp only [List.mem_singleton] at h
          subst h
          exact Or.inl (List.mem_cons_self _ _)

/-- A non-blank line can only come from a non-blank string. -/
theorem nonblank_line_of_nonblank {s l : String}
    (hl : l ∈ pySplitlines s) (hne : pyStrip l ≠ "") : pyStrip s ≠ "" := by
  intro hs
  have hall := (pyStrip_eq_empty_iff s).mp hs
  apply hne
  apply (pyStrip_eq_empty_iff l).mpr
  intro c hc
  rcases pyLinesGo_chars s.data [] l hl c hc with h | h
  · exact hall c h
  · simp at h

/-- A block with content holds a non-blank line. -/
theorem exists_nonblank_of_hasContent {b : List String} (h : hasContent b = true) :
    ∃ l ∈ b, pyStrip l ≠ "" := by
  unfold hasContent at h
  rw [List.any_eq_true] at h
  obtain ⟨l, hl, hne⟩ := h
  exact ⟨l, hl, by simpa using hne⟩

/-- `split_meals` is the trimmed join of the regions that have content. -/
theorem split_meals_eq_regions (s : String) :
    split_meals s = ((regions (pySplitlines s)).filter hasContent).map trimJoin := by
  unfold split_meals regions
  rw [splitBlocks_eq_filter_regionsGo, filter_nonempty_filter_hasContent]

/-- If the segmenter recovered any section, the plan is not blank. -/
theorem split_meals_nonblank {s : String} (h : split_meals s ≠ []) :
    pyStrip s ≠ "" := by
  rw [split_meals_eq_regions] at h
  have hfil : (regions (pySplitlines s)).filter hasContent ≠ [] := by
    intro h0
    rw [h0] at h
    simp at h
  obtain ⟨r, hr⟩ := List.exists_mem_of_length_pos (List.length_pos.mpr hfil)
  have hrmem := List.mem_filter.mp hr
  obtain ⟨l, hl, hlne⟩ := exists_nonblank_of_hasContent hrmem.2
  rcases mem_regionsGo_mem (pySplitlines s) [] r hrmem.1 l hl with hmem | hmem
  · exact nonblank_line_of_nonblank hmem hlne
  · simp at hmem

/-
  Behavior of the meal-building loop.
-/

/-- When every needed backend call succeeds, the loop returns one meal
record per reconciled pair. -/
theorem build_meals_success (env : GenEnv) (base : String) :
    ∀ (pairs : List (String × String)) (idx : Nat) (fs : FS),
      (∀ p ∈ pairs, env.imageData p.2 ≠ none ∧ env.spokenAudio p.1 ≠ none) →
      ∃ fs' ms, build_meals env base idx pairs fs = (fs', some ms)
        ∧ ms.length = pairs.length
  | [], _, fs, _ => ⟨fs, [], rfl, rfl⟩
  | (sec, tit) :: rest, idx, fs, h => by
    obtain ⟨himg, hspk⟩ := h (sec, tit) (List.mem_cons_self _ _)
    obtain ⟨bi, hbi⟩ := Option.ne_none_iff_exists'.mp himg
    obtain ⟨ba, hba⟩ := Option.ne_none_iff_exists'.mp hspk
    obtain ⟨fs', ms, hbm, hlen⟩ := build_meals_success env base rest (idx + 1)
      (fsWrite (fsWrite (fsWrite fs (recipe_path (meal_names.getD idx "")) sec)
        (image_path tit) bi) (audio_path (meal_names.getD idx "")) ba)
      (fun p hp => h p (List.mem_cons_of_mem _ hp))
    refine ⟨fs',
      { title := tit
        text := sec
        image_url := path_to_url (image_path tit) base
        audio_url := path_to_url (audio_path (meal_names.getD idx "")) base
        html_url := base ++ "meal_plan_html/" ++ meal_names.getD idx "" } :: ms, ?_, ?_⟩
    · simp only [build_meals, create_and_save_image, speak, hbi, hba, hbm]
    · simp [hlen]

/-
  Disjointness of the three asset directories, and basic facts about the
  canonical identifiers and the reconciler.
-/

/-- String append acts as list append on the character data. -/
theorem str_data_append (a b : String) : (a ++ b).data = a.data ++ b.data := rfl

/-- Reading position 11 of `(p ++ x) ++ s` lands inside a long prefix `p`. -/
theorem append3_getElem11 (p x s : String) (hp : 11 < p.data.length) :
    (((p ++ x) ++ s).data)[11]? = (p.data)[11]? := by
  rw [str_data_append, str_data_append, List.append_assoc]
  exact List.getElem?_append_left hp

/-- A recipe-text path never collides with an image path, whatever the
sanitized title. -/
theorem recipe_ne_image (a b : String) : recipe_path a ≠ image_path b := by
  intro h
  have h11 := congrArg (fun s => (s.data)[11]?) h
  simp only [recipe_path, image_path] at h11
  rw [append3_getElem11 _ _ _ (by decide), append3_getElem11 _ _ _ (by decide)] at h11
  exact absurd h11 (by decide)

/-- A recipe-text path never collides with an audio path. -/
theorem recipe_ne_audio (a b : String) : recipe_path a ≠ audio_path b := by
  intro h
  have h11 := congrArg (fun s => (s.data)[11]?) h
  simp only [recipe_path, audio_path] at h11
  rw [append3_getElem11 _ _ _ (by decide), append3_getElem11 _ _ _ (by decide)] at h11
  exact absurd h11 (by decide)

/-- Distinct identifiers give distinct recipe-text paths. -/
theorem recipe_path_ne {a b : String} (hne : a ≠ b) : recipe_path a ≠ recipe_path b := by
  intro h
  apply hne
  have hd := congrArg String.data h
  simp only [recipe_path] at hd
  rw [str_data_append, str_data_append, str_data_append, str_data_append] at hd
  have h1 := List.append_cancel_right hd
  have h2 := List.append_cancel_left h1
  cases a
  cases b
  simp_all

/-- The three canonical identifiers are pairwise distinct by slot. -/
theorem meal_names_getD_ne {i j : Nat} (hi : i < 3) (hij : i < j) :
    meal_names.getD i "" ≠ meal_names.getD j "" := by
  by_cases hj : j < 3
  · interval_cases i <;> interval_cases j <;> simp_all <;> decide
  · have hjd : meal_names.getD j "" = "" := by
      rw [List.getD_eq_getElem?_getD, List.getElem?_eq_none]
      · rfl
      · simp only [meal_names, List.length_cons, List.length_nil]
        omega
    rw [hjd]
    interval_cases i <;> decide

/-- A successful reconciliation yields at most three pairs. -/
theorem reconcile_ok_length_le {sections titles : List String}
    {l : List (String × String)} (h : reconcile sections titles = .ok l) :
    l.length ≤ 3 := by
  unfold reconcile at h
  by_cases hc : sections.length < 3 ∨ titles.length < 3
  · rw [if_pos hc] at h
    by_cases h0 : min 3 (min sections.length titles.length) = 0
    · simp [h0] at h
    · rw [if_neg h0] at h
      simp only [Except.ok.injEq] at h
      subst h
      rw [List.length_zip]
      simp only [List.length_take]
      omega
  · rw [if_neg hc] at h
    simp only [Except.ok.injEq] at h
    subst h
    rw [List.length_zip]
    simp only [List.length_take]
    omega

/-- A successful reconciliation implies the raw plan was not blank. -/
theorem reconcile_ok_nonblank {s : String} {pairs : List (String × String)}
    (h : reconcile (split_meals s) (extract_titles s) = .ok pairs) :
    (pyStrip s == "") = false := by
  have hne : split_meals s ≠ [] := by
    intro h0
    rw [h0] at h
    simp [reconcile] at h
  simpa using split_meals_nonblank hne

/-- If the backend fails for any reconciled pair, the loop yields no meal
list. -/
theorem build_meals_fail (env : GenEnv) (base : String) :
    ∀ (pairs : List (String × String)) (idx : Nat) (fs : FS),
      (∃ p ∈ pairs, env.imageData p.2 = none ∨ env.spokenAudio p.1 = none) →
      (build_meals env base idx pairs fs).2 = none
  | [], _, _, h => by simp at h
  | (sec, tit) :: rest, idx, fs, h => by
    by_cases himg : env.imageData tit = none
    · simp [build_meals, create_and_save_image, himg]
    · obtain ⟨bi, hbi⟩ := Option.ne_none_iff_exists'.mp himg
      by_cases hspk : env.spokenAudio sec = none
      · simp [build_meals, create_and_save_image, speak, hbi, hspk]
      · obtain ⟨ba, hba⟩ := Option.ne_none_iff_exists'.mp hspk
        have hrest : ∃ p ∈ rest, env.imageData p.2 = none ∨ env.spokenAudio p.1 = none := by
          obtain ⟨p, hp, hfail⟩ := h
          rcases List.mem_cons.mp hp with rfl | hp
          · rcases hfail with hf | hf
            · exact absurd hf himg
            · exact absurd hf hspk
          · exact ⟨p, hp, hfail⟩
        have hr := build_meals_fail env base rest (idx + 1)
          (fsWrite (fsWrite (fsWrite fs (recipe_path (meal_names.getD idx "")) sec)
            (image_path tit) bi) (audio_path (meal_names.getD idx "")) ba) hrest
        rcases hbm : build_meals env base (idx + 1) rest
            (fsWrite (fsWrite (fsWrite fs (recipe_path (meal_names.getD idx "")) sec)
              (image_path tit) bi) (audio_path (meal_names.getD idx "")) ba)
          with ⟨fs4, r4⟩
        rw [hbm] at hr
        have hr4 : r4 = none := hr
        subst hr4
        simp only [build_meals, create_and_save_image, speak, hbi, hba, hbm]

/-- The loop writes only under slots at or past its starting index (and
image files): reads of other paths are unaffected. -/
theorem build_meals_frame (env : GenEnv) (base : String) :
    ∀ (pairs : List (String × String)) (idx : Nat) (fs : FS) (q : String),
      (∀ j, idx ≤ j →
        q ≠ recipe_path (meal_names.getD j "")
          ∧ q ≠ audio_path (meal_names.getD j "")) →
      (∀ t, q ≠ image_path t) →
      (build_meals env base idx pairs fs).1 q = fs q
  | [], _, _, _, _, _ => rfl
  | (sec, tit) :: rest, idx, fs, q, hq, hqi => by
    obtain ⟨hqr, hqa⟩ := hq idx (Nat.le_refl idx)
    have hfs1 : fsWrite fs (recipe_path (meal_names.getD idx "")) sec q = fs q := by
      unfold fsWrite
      rw [if_neg hqr]
    by_cases himg : env.imageData tit = none
    · simp only [build_meals, create_and_save_image, himg]
      exact hfs1
    · obtain ⟨bi, hbi⟩ := Option.ne_none_iff_exists'.mp himg
      have hfs2 : fsWrite (fsWrite fs (recipe_path (meal_names.getD idx "")) sec)
          (image_path tit) bi q = fs q := by
        unfold fsWrite
        rw [if_neg (hqi tit), if_neg hqr]
      by_cases hspk : env.spokenAudio sec = none
      · simp only [build_meals, create_and_save_image, speak, hbi, hspk]
        exact hfs2
      · obtain ⟨ba, hba⟩ := Option.ne_none_iff_exists'.mp hspk
        have hfs3 : fsWrite (fsWrite (fsWrite fs (recipe_path (meal_names.getD idx "")) sec)
            (image_path tit) bi) (audio_path (meal_names.getD idx "")) ba q = fs q := by
          unfold fsWrite
          rw [if_neg hqa, if_neg (hqi tit), if_neg hqr]
        have hrec2 := build_meals_frame env base rest (idx + 1)
          (fsWrite (fsWrite (fsWrite fs (recipe_path (meal_names.getD idx "")) sec)
            (image_path tit) bi) (audio_path (meal_names.getD idx "")) ba) q
          (fun j hj => hq j (by omega)) hqi
        rcases hbm : build_meals env base (idx + 1) rest
            (fsWrite (fsWrite (fsWrite fs (recipe_path (meal_names.getD idx "")) sec)
              (image_path tit) bi) (audio_path (meal_names.getD idx "")) ba)
          with ⟨fs4, r4⟩
        rw [hbm] at hrec2
        have hfs4 : fs4 q = fs q := hrec2.trans hfs3
        simp only [build_meals, create_and_save_image, speak, hbi, hba, hbm]
        cases r4 <;> simpa using hfs4

/-- The loop as actually executed aborts at its first slot, having written
only that slot's recipe text. -/
theorem build_meals_actual_aborts (env : GenEnv) (base : String) (idx : Nat)
    (p : String × String) (rest : List (String × String)) (fs : FS) :
    build_meals_actual env base idx (p :: rest) fs
      = (fsWrite fs (recipe_path (meal_names.getD idx "")) p.1, none) := by
  obtain ⟨sec, tit⟩ := p
  rfl

/-- If the backend succeeds for every slot before `k` and fails at slot `k`,
the loop aborts with no meal list, but the recipe files of slots `0..k`
have been written with their section texts. -/
theorem build_meals_first_fail (env : GenEnv) (base : String) :
    ∀ (pairs : List (String × String)) (idx : Nat) (fs : FS) (k : Nat),
      idx + pairs.length ≤ 3 → ∀ (hk : k < pairs.length),
      (∀ j (hj : j < pairs.length), j < k →
        env.imageData (pairs.get ⟨j, hj⟩).2 ≠ none
          ∧ env.spokenAudio (pairs.get ⟨j, hj⟩).1 ≠ none) →
      (env.imageData (pairs.get ⟨k, hk⟩).2 = none
        ∨ env.spokenAudio (pairs.get ⟨k, hk⟩).1 = none) →
      (build_meals env base idx pairs fs).2 = none
      ∧ ∀ i (hi : i < pairs.length), i ≤ k →
          (build_meals env base idx pairs fs).1
            (recipe_path (meal_names.getD (idx + i) ""))
            = some (pairs.get ⟨i, hi⟩).1
  | [], idx, fs, k => by
    intro _ hk
    exact absurd hk (by simp)
  | (sec, tit) :: rest, idx, fs, k => by
    intro hlen hk hbefore hfailk
    have hidx3 : idx < 3 := by
      simp only [List.length_cons] at hlen
      omega
    cases k with
    | zero =>
      have hfail0 : env.imageData tit = none ∨ env.spokenAudio sec = none := hfailk
      by_cases himg : env.imageData tit = none
      · constructor
        · simp [build_meals, create_and_save_image, himg]
        · intro i hi hik
          have hi0 : i = 0 := Nat.le_zero.mp hik
          subst hi0
          simp only [build_meals, create_and_save_image, himg]
          rw [Nat.add_zero]
          unfold fsWrite
          rw [if_pos rfl]
          rfl
      · obtain ⟨bi, hbi⟩ := Option.ne_none_iff_exists'.mp himg
        have hspk : env.spokenAudio sec = none := by
          rcases hfail0 with hf | hf
          · exact absurd hf himg
          · exact hf
        constructor
        · simp [build_meals, create_and_save_image, speak, hbi, hspk]
        · intro i hi hik
          have hi0 : i = 0 := Nat.le_zero.mp hik
          subst hi0
          simp only [build_meals, create_and_save_image, speak, hbi, hspk]
          rw [Nat.add_zero]
          unfold fsWrite
          rw [if_neg (recipe_ne_image _ _), if_pos rfl]
          rfl
    | succ k' =>
      have h0 := hbefore 0 (by simp) (Nat.succ_pos k')
      obtain ⟨bi, hbi0⟩ := Option.ne_none_iff_exists'.mp h0.1
      obtain ⟨ba, hba0⟩ := Option.ne_none_iff_exists'.mp h0.2
      have hbi : env.imageData tit = some bi := hbi0
      have hba : env.spokenAudio sec = some ba := hba0
      have hk' : k' < rest.length := by
        simp only [List.length_cons] at hk
        omega
      have hbefore' : ∀ j (hj : j < rest.length), j < k' →
          env.imageData (rest.get ⟨j, hj⟩).2 ≠ none
            ∧ env.spokenAudio (rest.get ⟨j, hj⟩).1 ≠ none := by
        intro j hj hjk
        exact hbefore (j + 1) (by simp only [List.length_cons]; omega)
          (Nat.succ_lt_succ hjk)
      have hfailk' : env.imageData (rest.get ⟨k', hk'⟩).2 = none
          ∨ env.spokenAudio (rest.get ⟨k', hk'⟩).1 = none := hfailk
      have hlen' : (idx + 1) + rest.length ≤ 3 := by
        simp only [List.length_cons] at hlen
        omega
      obtain ⟨ih1, ih2⟩ := build_meals_first_fail env base rest (idx + 1)
        (fsWrite (fsWrite (fsWrite fs (recipe_path (meal_names.getD idx "")) sec)
          (image_path tit) bi) (audio_path (meal_names.getD idx "")) ba) k'
        hlen' hk' hbefore' hfailk'
      rcases hbm : build_meals env base (idx + 1) rest
          (fsWrite (fsWrite (fsWrite fs (recipe_path (meal_names.getD idx "")) sec)
            (image_path tit) bi) (audio_path (meal_names.getD idx "")) ba)
        with ⟨fs4, r4⟩
      rw [hbm] at ih1 ih2
      have hr4 : r4 = none := ih1
      subst hr4
      constructor
      · simp only [build_meals, create_and_save_image, speak, hbi, hba, hbm]
      · intro i hi hik
        cases i with
        | zero =>
          simp only [build_meals, create_and_save_image, speak, hbi, hba, hbm]
          rw [Nat.add_zero]
          have hframe := build_meals_frame env base rest (idx + 1)
            (fsWrite (fsWrite (fsWrite fs (recipe_path (meal_names.getD idx "")) sec)
              (image_path tit) bi) (audio_path (meal_names.getD idx "")) ba)
            (recipe_path (meal_names.getD idx ""))
            (fun j hj => ⟨recipe_path_ne (meal_names_getD_ne hidx3 (by omega)),
              recipe_ne_audio _ _⟩)
            (fun t => recipe_ne_image _ _)
          rw [hbm] at hframe
          have hframe' : fs4 (recipe_path (meal_names.getD idx ""))
              = fsWrite (fsWrite (fsWrite fs (recipe_path (meal_names.getD idx "")) sec)
                  (image_path tit) bi) (audio_path (meal_names.getD idx "")) ba
                (recipe_path (meal_names.getD idx "")) := hframe
          rw [hframe']
          unfold fsWrite
          rw [if_neg (recipe_ne_audio _ _), if_neg (recipe_ne_image _ _), if_pos rfl]
          rfl
        | succ i' =>
          have hi' : i' < rest.length := by
            simp only [List.length_cons] at hi
            omega
          have hik' : i' ≤ k' := Nat.le_of_succ_le_succ hik
          have hread := ih2 i' hi' hik'
          simp only [build_meals, create_and_save_image, speak, hbi, hba, hbm]
          have hidx : idx + (i' + 1) = (idx + 1) + i' := by omega
          rw [hidx]
          exact hread

/-
  Claim theorems.
-/

/-- Claim C1 (code bug): the spec requires the persisted image path to be a
pure function of the canonical slot identifier (`images/{identifier}.png`),
but `services.create_and_save_image` derives it from the sanitized title
(`images/{safe_filename(title)}.png`), so it varies with the title and never
equals the identifier-based path the HTML route serves. (The orchestrator in
`main.py` even passes a `filename_prefix=meal_name` keyword argument that
`create_and_save_image` does not accept, so the call raises `TypeError`.) -/
theorem C1_image_path_depends_on_title :
    image_path "Oatmeal Bowl" = "app/static/images/Oatmeal_Bowl.png"
    ∧ image_path "Oatmeal Bowl" ≠ "app/static/images/breakfast.png"
    ∧ image_path "Oatmeal Bowl" ≠ image_path "Pancake Stack" := by
  refine ⟨rfl, ?_, ?_⟩ <;> decide

/-- Claim C3 is refuted at a concrete input: `extract_titles` uses the
literal last line produced by `splitlines`, not the last non-empty line, so
an input whose last non-empty line is `A,B` but which ends in a blank line
yields `[]` instead of the titles of that line. -/
theorem C3_counterexample :
    specLastNonEmptyLine "A,B\n\n" = some "A,B"
    ∧ extract_titles "A,B" = ["A", "B"]
    ∧ extract_titles "A,B\n\n" = []
    ∧ extract_titles "A,B\n\n" ≠ extract_titles "A,B" :=
  ⟨rfl, rfl, rfl, by decide⟩

/-- Claim C3 amended: `extract_titles` operates on the literal last line of
the split input — an input all of whose lines are blank yields `[]` (as does
an empty input), and the result depends only on the last line, so trailing
blank lines make the result `[]` even when earlier lines are non-empty. -/
theorem C3_extract_titles_last_line (s : String) :
    ((pySplitlines s).all (fun l => pyStrip l == "") = true → extract_titles s = [])
    ∧ ∀ t : String, (pySplitlines s).getLast? = (pySplitlines t).getLast? →
        extract_titles s = extract_titles t := by
  constructor
  · intro hall
    cases hlast : (pySplitlines s).getLast? with
    | none =>
      unfold extract_titles
      rw [hlast]
    | some l =>
      have hl := List.mem_of_mem_getLast? hlast
      have hblank : pyStrip l = "" := by
        simpa using List.all_eq_true.mp hall l hl
      unfold extract_titles
      simp only [hlast, hblank]
      rfl
  · intro t h
    unfold extract_titles
    rw [h]

/-- Witness for C3 (amended): a blank-lines-only input yields no titles,
and inputs sharing a last line extract the same titles. -/
theorem C3_extract_titles_witness :
    extract_titles "\n \n" = []
    ∧ extract_titles "x\nA,B" = extract_titles "y\nA,B" :=
  ⟨(C3_extract_titles_last_line "\n \n").1 (by decide),
    (C3_extract_titles_last_line "x\nA,B").2 "y\nA,B" (by decide)⟩

/-- Claim C4: reconciliation fails with `emptyOrMalformedPlan` exactly when
`n = min(3, |sections|, |titles|)` is zero, and otherwise returns precisely
the first `n` sections zipped with the first `n` titles; in particular
`reconcile [s0,s1,s2,s3] [t0,t1] = [(s0,t0),(s1,t1)]` and
`reconcile [s0] [t0,t1,t2] = [(s0,t0)]`. -/
theorem C4_reconcile (sections titles : List String) :
    (reconcile sections titles = .error .emptyOrMalformedPlan
        ↔ min 3 (min sections.length titles.length) = 0)
    ∧ (min 3 (min sections.length titles.length) ≠ 0 →
        reconcile sections titles =
          .ok ((sections.take (min 3 (min sections.length titles.length))).zip
            (titles.take (min 3 (min sections.length titles.length)))))
    ∧ (∀ l, reconcile sections titles = .ok l →
        l.length = min 3 (min sections.length titles.length))
    ∧ (∀ s0 s1 s2 s3 t0 t1 : String,
        reconcile [s0, s1, s2, s3] [t0, t1] = .ok [(s0, t0), (s1, t1)])
    ∧ (∀ s0 t0 t1 t2 : String, reconcile [s0] [t0, t1, t2] = .ok [(s0, t0)]) := by
  refine ⟨?_, ?_, ?_, fun _ _ _ _ _ _ => rfl, fun _ _ _ _ => rfl⟩
  · unfold reconcile
    by_cases h : sections.length < 3 ∨ titles.length < 3
    · simp only [if_pos h]
      by_cases h0 : min 3 (min sections.length titles.length) = 0
      · simp [h0]
      · simp [h0]
    · simp only [if_neg h]
      push_neg at h
      constructor
      · intro hcontr; exact absurd hcontr (by simp)
      · omega
  · intro h0
    unfold reconcile
    by_cases h : sections.length < 3 ∨ titles.length < 3
    · simp only [if_pos h, if_neg h0, List.take_take]
      have hmm : min 3 (min 3 (min sections.length titles.length))
          = min 3 (min sections.length titles.length) := by omega
      rw [hmm]
    · push_neg at h
      have h3 : min 3 (min sections.length titles.length) = 3 := by omega
      simp only [if_neg (by omega : ¬(sections.length < 3 ∨ titles.length < 3)), h3]
  · intro l hl
    have h0 : min 3 (min sections.length titles.length) ≠ 0 := by
      intro h0
      unfold reconcile at hl
      have h : sections.length < 3 ∨ titles.length < 3 := by omega
      simp [if_pos h, h0] at hl
    by_cases h : sections.length < 3 ∨ titles.length < 3
    · unfold reconcile at hl
      simp only [if_pos h, if_neg h0, List.take_take, Except.ok.injEq] at hl
      subst hl
      rw [List.length_zip]
      simp only [List.length_take]
      omega
    · unfold reconcile at hl
      simp only [if_neg h, Except.ok.injEq] at hl
      subst hl
      push_neg at h
      rw [List.length_zip]
      simp only [List.length_take]
      omega

/-- Witness for C4 at a concrete input: one section, three titles. -/
theorem C4_reconcile_witness :
    reconcile ["a"] ["x", "y", "z"] =
      .ok (((["a"] : List String).take
            (min 3 (min (["a"] : List String).length (["x", "y", "z"] : List String).length))).zip
        ((["x", "y", "z"] : List String).take
            (min 3 (min (["a"] : List String).length (["x", "y", "z"] : List String).length)))) :=
  (C4_reconcile ["a"] ["x", "y", "z"]).2.1 (by decide)

/-- Claim C7: `safe_filename` yields `Grilled_Chicken_v2` on the spec's
example, and every character of any output is an ASCII letter, digit,
underscore, or hyphen — in particular never a space. -/
theorem C7_safe_filename :
    safe_filename "Grilled *Chicken*, v2!" = "Grilled_Chicken_v2"
    ∧ ∀ (name : String) (c : Char), c ∈ (safe_filename name).data →
        isAllowedChar c = true ∧ c ≠ ' ' := by
  refine ⟨rfl, fun name c hc => ?_⟩
  have hmem : c ∈ List.filter isAllowedChar
      ((pyStripWith isPySpace name).data.map fun c => if c = ' ' then '_' else c) := hc
  have hall : isAllowedChar c = true := List.of_mem_filter hmem
  refine ⟨hall, fun hsp => ?_⟩
  subst hsp
  simp [isAllowedChar] at hall

/-- Witness for C7: the character `G` of `safe_filename "G b"` is allowed. -/
theorem C7_safe_filename_witness :
    ('G' ∈ (safe_filename "G b").data) ∧ (isAllowedChar 'G' = true ∧ 'G' ≠ ' ') :=
  ⟨by decide, C7_safe_filename.2 "G b" 'G' (by decide)⟩

/-- Claim C6 is refuted at a concrete input: the filter in
`extract_titles` discards fragments that are blank before quote-stripping,
not fragments that become empty after it, so the fragment `''` survives as
an empty-string title instead of being discarded. -/
theorem C6_counterexample :
    extract_titles "A, \x27\x27" = ["A", ""]
    ∧ "" ∈ extract_titles "A, \x27\x27"
    ∧ extract_titles "A, \x27\x27" ≠ ["A"] :=
  ⟨rfl, by decide, by decide⟩

/-- Claim C6 amended: `extract_titles` splits the stripped last line on
commas, discards exactly the fragments that are whitespace-blank before
quote-trimming (so one title per remaining fragment, in order; a fragment
that becomes empty only after quote-trimming is kept as an empty title),
and trims the surviving fragments of surrounding spaces and single quotes;
in particular the line `'A', B ,C` yields `["A","B","C"]`. -/
theorem C6_extract_titles_fragments (s : String) :
    extract_titles "\x27A\x27, B ,C" = ["A", "B", "C"]
    ∧ (extract_titles s).length
        = ((lastLineFragments s).filter (fun t => !(pyStrip t == ""))).length
    ∧ ∀ t ∈ extract_titles s,
        (∀ c, t.data.head? = some c → isSpaceQuote c = false)
        ∧ (∀ c, t.data.getLast? = some c → isSpaceQuote c = false) := by
  refine ⟨rfl, ?_, ?_⟩
  · unfold extract_titles lastLineFragments
    cases hlast : (pySplitlines s).getLast? with
    | none => rfl
    | some l => simp
  · intro t ht
    unfold extract_titles at ht
    cases hlast : (pySplitlines s).getLast? with
    | none =>
      rw [hlast] at ht
      simp at ht
    | some l =>
      simp only [hlast] at ht
      obtain ⟨u, _, rfl⟩ := List.mem_map.mp ht
      exact ⟨fun c hc => stripEnds_head hc, fun c hc => stripEnds_getLast hc⟩

/-- Witness for C6 (amended): the extracted title `A` of a concrete input
starts and ends with a character that is neither a space nor a quote. -/
theorem C6_extract_titles_witness :
    isSpaceQuote 'A' = false :=
  ((C6_extract_titles_fragments "x\n\x27A\x27, B").2.2 "A" (by decide)).1 'A' (by decide)

/-- Claim C5: `split_meals` returns, in input order, the trimmed joins of
the inter-separator regions that contain a non-blank line; no region holds
a separator line; with `k` separator lines the result has exactly `k + 1`
blocks when every region is non-blank, and fewer when some region is
blank-only. -/
theorem C5_segmenter (s : String) :
    split_meals s = ((regions (pySplitlines s)).filter hasContent).map trimJoin
    ∧ (∀ r ∈ regions (pySplitlines s), ∀ l ∈ r, isSeparator l = false)
    ∧ ((regions (pySplitlines s)).all hasContent = true →
        (split_meals s).length = (pySplitlines s).countP isSeparator + 1)
    ∧ ((∃ r ∈ regions (pySplitlines s), hasContent r = false) →
        (split_meals s).length < (pySplitlines s).countP isSeparator + 1) := by
  refine ⟨split_meals_eq_regions s, regionsGo_no_separator _ [] (by simp), ?_, ?_⟩
  · intro hall
    rw [split_meals_eq_regions, List.length_map]
    have hf : (regions (pySplitlines s)).filter hasContent = regions (pySplitlines s) := by
      rw [List.filter_eq_self]
      exact fun r hr => (List.all_eq_true.mp hall) r hr
    rw [hf]
    exact regionsGo_length _ []
  · intro hex
    rw [split_meals_eq_regions, List.length_map]
    have := length_filter_lt hasContent (regions (pySplitlines s)) hex
    unfold regions at this
    rwa [regionsGo_length _ []] at this

/-- Witness for C5: a plan with two separators and three non-blank regions
has three blocks; one with a leading separator and an empty first region
has fewer blocks than separators plus one. -/
theorem C5_segmenter_witness :
    ((split_meals "One\n----------\nTwo\n----------\nThree").length
        = (pySplitlines "One\n----------\nTwo\n----------\nThree").countP isSeparator + 1)
    ∧ ((split_meals "----------\nOnly").length
        < (pySplitlines "----------\nOnly").countP isSeparator + 1) :=
  ⟨(C5_segmenter "One\n----------\nTwo\n----------\nThree").2.2.1 (by decide),
    (C5_segmenter "----------\nOnly").2.2.2 ⟨[], by decide, rfl⟩⟩

/-- Claim C2 is refuted at a concrete input: a raw plan with exactly 2
separator lines, non-blank content between and around them, and a final
line of 3 comma-separated titles reconciles to 3 pairs, not 2 — the
inter-separator regions number separators + 1, so `n = min(3,3,3) = 3` —
and the run as actually executed then yields no meal records at all, even
with a fully successful backend, because the first image call raises
`TypeError` (claim C1). -/
theorem C2_counterexample :
    (pySplitlines "One\n----------\nTwo\n----------\nThree\nA, B, C").countP isSeparator = 2
    ∧ (regions (pySplitlines "One\n----------\nTwo\n----------\nThree\nA, B, C")).all
        hasContent = true
    ∧ (extract_titles "One\n----------\nTwo\n----------\nThree\nA, B, C").length = 3
    ∧ reconcile (split_meals "One\n----------\nTwo\n----------\nThree\nA, B, C")
        (extract_titles "One\n----------\nTwo\n----------\nThree\nA, B, C")
        = .ok [("One", "A"), ("Two", "B"), ("Three\nA, B, C", "C")]
    ∧ ([("One", "A"), ("Two", "B"), ("Three\nA, B, C", "C")] :
        List (String × String)).length ≠ 2
    ∧ mealCount (generate_meal_plan_actual ⟨fun _ => some "img", fun _ => some "aud"⟩
        "http://h/" "One\n----------\nTwo\n----------\nThree\nA, B, C" fsEmpty) = none
    ∧ (none : Option Nat) ≠ some 2 :=
  ⟨rfl, rfl, rfl, rfl, by decide, rfl, by decide⟩

/-- Claim C2 amended: a raw plan with exactly 2 separator lines, non-blank
content between and around them, and 3 extracted titles has exactly
3 sections, so reconciliation returns exactly `min(3, 3, 3) = 3` pairs —
but the request as actually executed returns no meal records at all,
failing with `assetGenerationFailure`, because the loop's first image call
raises `TypeError` (claim C1). -/
theorem C2_amended (s : String) (env : GenEnv) (base : String) (fs : FS)
    (h1 : (pySplitlines s).countP isSeparator = 2)
    (h2 : (regions (pySplitlines s)).all hasContent = true)
    (h3 : (extract_titles s).length = 3) :
    (split_meals s).length = 3
    ∧ reconcile (split_meals s) (extract_titles s)
        = .ok ((split_meals s).zip (extract_titles s))
    ∧ ((split_meals s).zip (extract_titles s)).length = 3
    ∧ (generate_meal_plan_actual env base s fs).2 = .error .assetGenerationFailure
    ∧ mealCount (generate_meal_plan_actual env base s fs) = none := by
  have hsec : (split_meals s).length = 3 := by
    rw [split_meals_eq_regions, List.length_map]
    have hf : (regions (pySplitlines s)).filter hasContent = regions (pySplitlines s) :=
      List.filter_eq_self.mpr fun r hr => List.all_eq_true.mp h2 r hr
    rw [hf]
    unfold regions
    rw [regionsGo_length _ [], h1]
  have hne : split_meals s ≠ [] := by
    intro h0
    rw [h0] at hsec
    simp at hsec
  have hb : (pyStrip s == "") = false := by
    have := split_meals_nonblank hne
    simpa using this
  have hrec : reconcile (split_meals s) (extract_titles s)
      = .ok ((split_meals s).zip (extract_titles s)) := by
    unfold reconcile
    rw [if_neg (by omega)]
    rw [List.take_of_length_le (by omega), List.take_of_length_le (by omega)]
  have hplen : ((split_meals s).zip (extract_titles s)).length = 3 := by
    rw [List.length_zip, hsec, h3]
    omega
  obtain ⟨p, rest, hp⟩ : ∃ p rest,
      (split_meals s).zip (extract_titles s) = p :: rest := by
    cases hz : (split_meals s).zip (extract_titles s) with
    | nil =>
      rw [hz] at hplen
      simp at hplen
    | cons p rest => exact ⟨p, rest, rfl⟩
  have habort := build_meals_actual_aborts env base 0 p rest fs
  refine ⟨hsec, hrec, hplen, ?_, ?_⟩
  · simp [generate_meal_plan_actual, hb, hrec, hp, habort]
  · simp [mealCount, generate_meal_plan_actual, hb, hrec, hp, habort]

/-- Witness for C2 (amended) at the concrete boundary plan. -/
theorem C2_amended_witness :
    (split_meals "Uno\n----------\nDue\n----------\nTre\nA, B, C").length = 3
    ∧ reconcile (split_meals "Uno\n----------\nDue\n----------\nTre\nA, B, C")
        (extract_titles "Uno\n----------\nDue\n----------\nTre\nA, B, C")
        = .ok ((split_meals "Uno\n----------\nDue\n----------\nTre\nA, B, C").zip
            (extract_titles "Uno\n----------\nDue\n----------\nTre\nA, B, C"))
    ∧ ((split_meals "Uno\n----------\nDue\n----------\nTre\nA, B, C").zip
        (extract_titles "Uno\n----------\nDue\n----------\nTre\nA, B, C")).length = 3
    ∧ (generate_meal_plan_actual ⟨fun _ => some "i", fun _ => some "a"⟩ "http://h/"
        "Uno\n----------\nDue\n----------\nTre\nA, B, C" fsEmpty).2
        = .error .assetGenerationFailure
    ∧ mealCount (generate_meal_plan_actual ⟨fun _ => some "i", fun _ => some "a"⟩
        "http://h/" "Uno\n----------\nDue\n----------\nTre\nA, B, C" fsEmpty) = none :=
  C2_amended "Uno\n----------\nDue\n----------\nTre\nA, B, C"
    ⟨fun _ => some "i", fun _ => some "a"⟩ "http://h/" fsEmpty
    (by decide) (by decide) (by decide)

/-- Claim C8: `GET /meal_plan_html/{meal_name}` responds 400 exactly when
the lowercased name is not one of breakfast/lunch/dinner; for a valid name
it responds 404 exactly when `recipes/{meal_name}.txt` does not exist, and
otherwise renders that file's content as HTML embedding the
identifier-derived image and audio URLs. -/
theorem C8_get_meal_html (fs : FS) (md : String → String) (mn base : String) :
    (get_meal_html fs md mn base = .badRequest
        ↔ meal_names.contains (pyLower mn) = false)
    ∧ (meal_names.contains (pyLower mn) = true →
        (get_meal_html fs md mn base = .notFound
          ↔ fs (recipe_path (pyLower mn)) = none))
    ∧ (meal_names.contains (pyLower mn) = true → ∀ raw,
        fs (recipe_path (pyLower mn)) = some raw →
        get_meal_html fs md mn base
          = .page (pyCapitalize (pyLower mn)) (md raw)
              (base ++ "static/images/" ++ pyLower mn ++ ".png")
              (base ++ "static/audio/" ++ pyLower mn ++ ".mp3")) := by
  refine ⟨?_, ?_, ?_⟩
  · by_cases hm : pyLower mn ∈ meal_names
    · cases hfs : fs (recipe_path (pyLower mn)) with
      | none => simp [get_meal_html, hm, hfs]
      | some raw => simp [get_meal_html, hm, hfs]
    · simp [get_meal_html, hm]
  · intro hc
    have hm : pyLower mn ∈ meal_names := by simpa using hc
    cases hfs : fs (recipe_path (pyLower mn)) with
    | none => simp [get_meal_html, hm, hfs]
    | some raw => simp [get_meal_html, hm, hfs]
  · intro hc raw hraw
    have hm : pyLower mn ∈ meal_names := by simpa using hc
    simp [get_meal_html, hm, hraw]

/-- Witness for C8: a mixed-case valid name with the recipe file present
renders the page; the 404 equivalence holds when the file is absent. -/
theorem C8_get_meal_html_witness :
    (get_meal_html
        (fun q => if q = "app/static/recipes/breakfast.txt" then some "Oats" else none)
        id "BreakFast" "http://h/"
      = .page "Breakfast" "Oats" "http://h/static/images/breakfast.png"
          "http://h/static/audio/breakfast.mp3")
    ∧ (get_meal_html fsEmpty id "dinner" "http://h/" = .notFound
        ↔ fsEmpty (recipe_path (pyLower "dinner")) = none) :=
  ⟨(C8_get_meal_html
      (fun q => if q = "app/static/recipes/breakfast.txt" then some "Oats" else none)
      id "BreakFast" "http://h/").2.2 (by decide) "Oats" (by decide),
    (C8_get_meal_html fsEmpty id "dinner" "http://h/").2.1 (by decide)⟩

/-- Claim C9: once reconciliation has produced the pair list, a failure of
the image generation/download or of the speech pipeline for any one meal
makes the whole request fail with `assetGenerationFailure`; no partial meal
list is ever returned. -/
theorem C9_all_or_nothing (env : GenEnv) (base plan_text : String) (fs : FS)
    (pairs : List (String × String))
    (hrec : reconcile (split_meals plan_text) (extract_titles plan_text) = .ok pairs)
    (hfail : ∃ p ∈ pairs, env.imageData p.2 = none ∨ env.spokenAudio p.1 = none) :
    (generate_meal_plan env base plan_text fs).2 = .error .assetGenerationFailure := by
  have hb := reconcile_ok_nonblank hrec
  have hfail2 := build_meals_fail env base pairs 0 fs hfail
  rcases hbm : build_meals env base 0 pairs fs with ⟨fs', r⟩
  rw [hbm] at hfail2
  have hr : r = none := hfail2
  subst hr
  simp [generate_meal_plan, hb, hrec, hbm]

/-- Witness for C9: with an image backend that always fails, a well-formed
plan still yields a 500-class failure and no meals. -/
theorem C9_all_or_nothing_witness :
    (generate_meal_plan ⟨fun _ => none, fun _ => some "aud"⟩ "http://h/"
      "Uno\n----------\nDue\n----------\nTre\nA, B, C" fsEmpty).2
      = .error .assetGenerationFailure :=
  C9_all_or_nothing ⟨fun _ => none, fun _ => some "aud"⟩ "http://h/"
    "Uno\n----------\nDue\n----------\nTre\nA, B, C" fsEmpty
    [("Uno", "A"), ("Due", "B"), ("Tre\nA, B, C", "C")] rfl
    ⟨("Uno", "A"), by decide, Or.inl rfl⟩

/-- Claim C10: the recipe text of each slot is written before that slot's
image and audio generation is attempted, so when generation first fails at
slot `k`, the request fails, yet `recipes/{identifier}.txt` holds the
section text for every slot `0..k` and `GET /meal_plan_html` serves those
files. -/
theorem C10_failed_run_writes_recipes (env : GenEnv) (base plan_text : String)
    (fs : FS) (pairs : List (String × String)) (k : Nat) (md : String → String)
    (hrec : reconcile (split_meals plan_text) (extract_titles plan_text) = .ok pairs)
    (hk : k < pairs.length)
    (hbefore : ∀ j (hj : j < pairs.length), j < k →
        env.imageData (pairs.get ⟨j, hj⟩).2 ≠ none
          ∧ env.spokenAudio (pairs.get ⟨j, hj⟩).1 ≠ none)
    (hfailk : env.imageData (pairs.get ⟨k, hk⟩).2 = none
        ∨ env.spokenAudio (pairs.get ⟨k, hk⟩).1 = none) :
    (generate_meal_plan env base plan_text fs).2 = .error .assetGenerationFailure
    ∧ ∀ i (hi : i < pairs.length), i ≤ k →
        (generate_meal_plan env base plan_text fs).1
            (recipe_path (meal_names.getD i "")) = some (pairs.get ⟨i, hi⟩).1
        ∧ get_meal_html ((generate_meal_plan env base plan_text fs).1) md
              (meal_names.getD i "") base
            = .page (pyCapitalize (meal_names.getD i ""))
                (md (pairs.get ⟨i, hi⟩).1)
                (base ++ "static/images/" ++ meal_names.getD i "" ++ ".png")
                (base ++ "static/audio/" ++ meal_names.getD i "" ++ ".mp3") := by
  have hb := reconcile_ok_nonblank hrec
  have hlen3 := reconcile_ok_length_le hrec
  obtain ⟨h1, h2⟩ := build_meals_first_fail env base pairs 0 fs k
    (by omega) hk hbefore hfailk
  rcases hbm : build_meals env base 0 pairs fs with ⟨fs', r⟩
  rw [hbm] at h1 h2
  have hr : r = none := h1
  subst hr
  have hgen : generate_meal_plan env base plan_text fs
      = (fs', .error .assetGenerationFailure) := by
    simp [generate_meal_plan, hb, hrec, hbm]
  constructor
  · rw [hgen]
  · intro i hi hik
    have hread0 := h2 i hi hik
    have hread : fs' (recipe_path (meal_names.getD i ""))
        = some (pairs.get ⟨i, hi⟩).1 := by
      have h0i : 0 + i = i := Nat.zero_add i
      rw [h0i] at hread0
      exact hread0
    have hi3 : i < 3 := lt_of_lt_of_le hi hlen3
    rw [hgen]
    refine ⟨hread, ?_⟩
    have hvalid : meal_names.contains (meal_names.getD i "") = true := by
      interval_cases i <;> decide
    have hlow : pyLower (meal_names.getD i "") = meal_names.getD i "" := by
      interval_cases i <;> decide
    simp only [get_meal_html, hlow]
    rw [if_pos hvalid, hread]

/-- Witness for C10: the image backend fails on the second slot's title, so
the request fails, yet breakfast's and lunch's recipe files hold the first
two section texts. -/
theorem C10_failed_run_writes_recipes_witness :
    ((generate_meal_plan
        ⟨fun t => if t == "B" then none else some "img", fun _ => some "aud"⟩
        "http://h/" "Uno\n----------\nDue\n----------\nTre\nA, B, C" fsEmpty).2
      = .error .assetGenerationFailure)
    ∧ (generate_meal_plan
        ⟨fun t => if t == "B" then none else some "img", fun _ => some "aud"⟩
        "http://h/" "Uno\n----------\nDue\n----------\nTre\nA, B, C" fsEmpty).1
        (recipe_path (meal_names.getD 1 ""))
        = some (([("Uno", "A"), ("Due", "B"), ("Tre\nA, B, C", "C")].get
            ⟨1, by decide⟩).1) := by
  have h := C10_failed_run_writes_recipes
    ⟨fun t => if t == "B" then none else some "img", fun _ => some "aud"⟩
    "http://h/" "Uno\n----------\nDue\n----------\nTre\nA, B, C" fsEmpty
    [("Uno", "A"), ("Due", "B"), ("Tre\nA, B, C", "C")] 1 id rfl (by decide)
    (by decide) (by decide)
  exact ⟨h.1, (h.2 1 (by decide) (by decide)).1⟩
